import Mathlib

/-
  Shallow embedding of the hydra streaming chat core:
  - the WHATWG incremental UTF-8 text decoder (the platform TextDecoder used by
    parseNDJSON with the stream flag, including BOM stripping),
  - the NDJSON record loop of parseNDJSON (shared/ollama.ts),
  - the chat-event state machine of useChatStream (tool-calling.ts),
  - the tool registry and executeToolCall / the all() tool batch,
  - the usage accumulator helpers.
  Machine numbers from the wire are modelled as Int (JSON integer numerals);
  strings as Lean String / List Char of Unicode scalar values.
-/

namespace Hydra

/-! ### WHATWG incremental UTF-8 decoder

Model of the platform TextDecoder for utf-8 in streaming mode, as invoked by
parseNDJSON via decoder.decode(value, \x7b stream: true \x7d).  It is the
standard per-byte state machine: codepoint / bytesSeen / bytesNeeded plus the
lower and upper boundary for the next continuation byte; malformed input emits
U+FFFD; a leading U+FEFF byte-order mark is removed once. -/

structure DecCore where
  codepoint : Nat
  bytesSeen : Nat
  bytesNeeded : Nat
  lowerBoundary : Nat
  upperBoundary : Nat
  deriving DecidableEq, Repr

def initCore : DecCore := ⟨0, 0, 0, 0x80, 0xBF⟩

def replacementChar : Char := Char.ofNat 0xFFFD

/-- Processing of one byte in the start state (bytesNeeded = 0). -/
def decodeStartByte (b : Nat) : DecCore × List Char :=
  if b ≤ 0x7F then (initCore, [Char.ofNat b])
  else if 0xC2 ≤ b ∧ b ≤ 0xDF then
    ({ initCore with bytesNeeded := 1, codepoint := b % 32 }, [])
  else if 0xE0 ≤ b ∧ b ≤ 0xEF then
    ({ codepoint := b % 16, bytesSeen := 0, bytesNeeded := 2,
       lowerBoundary := if b = 0xE0 then 0xA0 else 0x80,
       upperBoundary := if b = 0xED then 0x9F else 0xBF }, [])
  else if 0xF0 ≤ b ∧ b ≤ 0xF4 then
    ({ codepoint := b % 8, bytesSeen := 0, bytesNeeded := 3,
       lowerBoundary := if b = 0xF0 then 0x90 else 0x80,
       upperBoundary := if b = 0xF4 then 0x8F else 0xBF }, [])
  else (initCore, [replacementChar])

/-- One byte of the WHATWG UTF-8 decode state machine.  In the continuation
state an out-of-range byte emits U+FFFD and reprocesses the byte from the
start state (the "prepend byte to stream" step, inlined). -/
def decodeCoreByte (s : DecCore) (b : Nat) : DecCore × List Char :=
  if s.bytesNeeded = 0 then decodeStartByte b
  else if s.lowerBoundary ≤ b ∧ b ≤ s.upperBoundary then
    let cp := s.codepoint * 64 + b % 64
    let seen := s.bytesSeen + 1
    if seen = s.bytesNeeded then (initCore, [Char.ofNat cp])
    else ({ codepoint := cp, bytesSeen := seen, bytesNeeded := s.bytesNeeded,
            lowerBoundary := 0x80, upperBoundary := 0xBF }, [])
  else
    let (s2, out) := decodeStartByte b
    (s2, replacementChar :: out)

/-- Full decoder state: the core state machine plus the pending
byte-order-mark strip for the first decoded character of the stream. -/
structure DecoderState where
  core : DecCore
  bomPending : Bool
  deriving DecidableEq, Repr

def initDecoder : DecoderState := ⟨initCore, true⟩

/-- Strip a single leading U+FEFF from the first produced characters. -/
def stripBom (pending : Bool) (out : List Char) : Bool × List Char :=
  match out with
  | [] => (pending, [])
  | c :: rest =>
    if pending ∧ c = Char.ofNat 0xFEFF then (false, rest)
    else (false, c :: rest)

def decodeByte (s : DecoderState) (b : Nat) : DecoderState × List Char :=
  let (core2, out) := decodeCoreByte s.core b
  let (pending2, out2) := stripBom s.bomPending out
  (⟨core2, pending2⟩, out2)

/-- Decode a whole chunk of bytes: exactly decoder.decode(chunk,
\x7b stream: true \x7d) — one fold of the per-byte machine, carrying the
decoder state across chunks and never flushing an incomplete tail. -/
def decodeBytes (s : DecoderState) : List Nat → DecoderState × List Char
  | [] => (s, [])
  | b :: bs =>
    let (s2, out) := decodeByte s b
    let (s3, rest) := decodeBytes s2 bs
    (s3, out ++ rest)

theorem decodeBytes_append (s : DecoderState) (xs ys : List Nat) :
    decodeBytes s (xs ++ ys) =
      ((decodeBytes (decodeBytes s xs).1 ys).1,
        (decodeBytes s xs).2 ++ (decodeBytes (decodeBytes s xs).1 ys).2) := by
  induction xs generalizing s with
  | nil => simp [decodeBytes]
  | cons b bs ih =>
    simp only [List.cons_append, decodeBytes, List.append_eq]
    rw [ih]
    simp [List.append_assoc]

/-- The text produced by feeding a list of chunks through the streaming
decoder, in order. -/
def decodeAll (s : DecoderState) : List (List Nat) → List Char
  | [] => []
  | c :: cs =>
    let (s2, out) := decodeBytes s c
    out ++ decodeAll s2 cs

theorem decodeAll_flatten (s : DecoderState) (chunks : List (List Nat)) :
    decodeAll s chunks = (decodeBytes s chunks.flatten).2 := by
  induction chunks generalizing s with
  | nil => simp [decodeAll, decodeBytes]
  | cons c cs ih =>
    simp only [decodeAll, List.flatten_cons]
    rw [decodeBytes_append, ih]

/-! ### NDJSON record loop (parseNDJSON, shared/ollama.ts)

The next() operation of parseNDJSON loops: if the buffer contains a newline,
split off the line before it, trim it, and yield it when non-empty (skipping
empty lines); otherwise read a chunk from the source and append its decoded
text; on source exhaustion yield the trimmed remaining buffer when non-empty,
else signal end.  parseNDJSON below collects the successive next() yields as
a list of raw lines (JSON.parse is applied per line on top, see parseJson). -/

/-- The JavaScript String.prototype.trim whitespace set (WhiteSpace and
LineTerminator code points). -/
def isJsWs (c : Char) : Bool :=
  c.toNat = 9 ∨ c.toNat = 10 ∨ c.toNat = 11 ∨ c.toNat = 12 ∨ c.toNat = 13 ∨
  c.toNat = 32 ∨ c.toNat = 160 ∨ c.toNat = 0x1680 ∨
  (0x2000 ≤ c.toNat ∧ c.toNat ≤ 0x200A) ∨
  c.toNat = 0x2028 ∨ c.toNat = 0x2029 ∨ c.toNat = 0x202F ∨
  c.toNat = 0x205F ∨ c.toNat = 0x3000 ∨ c.toNat = 0xFEFF

def jsTrim (l : List Char) : List Char :=
  (((l.dropWhile isJsWs).reverse).dropWhile isJsWs).reverse

/-- buffer.indexOf of a newline, as a split: the part before the first
newline and the part after it, or none when the buffer has no newline. -/
def splitNl : List Char → Option (List Char × List Char)
  | [] => none
  | c :: cs =>
    if c = '\n' then some ([], cs)
    else
      match splitNl cs with
      | some (a, b) => some (c :: a, b)
      | none => none

theorem splitNl_length {xs : List Char} :
    ∀ {a b}, splitNl xs = some (a, b) → b.length < xs.length := by
  induction xs with
  | nil => intro a b h; simp [splitNl] at h
  | cons c cs ih =>
    intro a b h
    simp only [splitNl] at h
    split at h
    · cases h
      exact Nat.lt_succ_self _
    · split at h
      · rename_i a2 b2 hs
        cases h
        exact Nat.lt_succ_of_lt (ih hs)
      · cases h

theorem splitNl_append_some {xs : List Char} (t : List Char) :
    ∀ {a b}, splitNl xs = some (a, b) → splitNl (xs ++ t) = some (a, b ++ t) := by
  induction xs with
  | nil => intro a b h; simp [splitNl] at h
  | cons c cs ih =>
    intro a b h
    simp only [splitNl] at h
    simp only [List.cons_append, splitNl, List.append_eq]
    split at h
    · cases h
      rename_i hc
      rw [if_pos hc]
    · rename_i hc
      rw [if_neg hc]
      split at h
      · rename_i a2 b2 hs
        cases h
        rw [ih hs]
      · cases h

theorem splitNl_none_append {xs : List Char} (t : List Char) (h : splitNl xs = none) :
    splitNl (xs ++ t) = (splitNl t).map (fun p => (xs ++ p.1, p.2)) := by
  induction xs with
  | nil =>
    simp only [List.nil_append]
    cases ht : splitNl t with
    | none => simp
    | some p => simp
  | cons c cs ih =>
    simp only [splitNl] at h
    simp only [List.cons_append, splitNl, List.append_eq]
    split at h
    · cases h
    · rename_i hc
      rw [if_neg hc]
      split at h
      · cases h
      · rename_i hs
        rw [ih hs]
        cases ht : splitNl t with
        | none => simp
        | some p => simp

/-- The record loop of parseNDJSON: buffer draining interleaved with chunk
reads, collecting every yielded (trimmed, non-empty) line in order.
When the buffer holds a newline the line before it is split off, trimmed
and yielded when non-empty; otherwise a chunk is read from the source and
its decoded text appended; when the source is exhausted, the trimmed
remaining buffer is yielded when non-empty. -/
def parseNDJSON (buf : List Char) (ds : DecoderState) (chunks : List (List Nat)) :
    List (List Char) :=
  if h : (splitNl buf).isSome then
    let p := (splitNl buf).get h
    if (jsTrim p.1).isEmpty then parseNDJSON p.2 ds chunks
    else jsTrim p.1 :: parseNDJSON p.2 ds chunks
  else
    match chunks with
    | [] => if (jsTrim buf).isEmpty then [] else [jsTrim buf]
    | c :: cs =>
      let (ds2, out) := decodeBytes ds c
      parseNDJSON (buf ++ out) ds2 cs
termination_by (chunks.length, buf.length)
decreasing_by
  · exact Prod.Lex.right _ (splitNl_length (Option.some_get h).symm)
  · exact Prod.Lex.right _ (splitNl_length (Option.some_get h).symm)
  · exact Prod.Lex.left _ _ (Nat.lt_succ_self _)

/-- The lines a complete text splits into: everything before each newline,
trimmed and kept when non-empty, plus the trimmed trailing part when
non-empty. -/
def ndjsonOfText (t : List Char) : List (List Char) :=
  if h : (splitNl t).isSome then
    let p := (splitNl t).get h
    if (jsTrim p.1).isEmpty then ndjsonOfText p.2
    else jsTrim p.1 :: ndjsonOfText p.2
  else if (jsTrim t).isEmpty then [] else [jsTrim t]
termination_by t.length
decreasing_by
  · exact splitNl_length (Option.some_get h).symm
  · exact splitNl_length (Option.some_get h).symm

theorem parseNDJSON_some {buf line rest : List Char} {ds : DecoderState}
    {chunks : List (List Nat)} (hs : splitNl buf = some (line, rest)) :
    parseNDJSON buf ds chunks =
      if (jsTrim line).isEmpty then parseNDJSON rest ds chunks
      else jsTrim line :: parseNDJSON rest ds chunks := by
  rw [parseNDJSON.eq_def]
  have h1 : (splitNl buf).isSome := by rw [hs]; rfl
  rw [dif_pos h1]
  have h2 : (splitNl buf).get h1 = (line, rest) := by simp [hs]
  rw [h2]

theorem parseNDJSON_none_nil {buf : List Char} {ds : DecoderState}
    (hs : splitNl buf = none) :
    parseNDJSON buf ds [] = if (jsTrim buf).isEmpty then [] else [jsTrim buf] := by
  rw [parseNDJSON.eq_def]
  have h1 : ¬ (splitNl buf).isSome := by rw [hs]; simp
  rw [dif_neg h1]

theorem parseNDJSON_none_cons {buf : List Char} {ds : DecoderState}
    {c : List Nat} {cs : List (List Nat)} (hs : splitNl buf = none) :
    parseNDJSON buf ds (c :: cs) =
      parseNDJSON (buf ++ (decodeBytes ds c).2) (decodeBytes ds c).1 cs := by
  rw [parseNDJSON.eq_def]
  have h1 : ¬ (splitNl buf).isSome := by rw [hs]; simp
  rw [dif_neg h1]

theorem ndjsonOfText_some {t line rest : List Char}
    (hs : splitNl t = some (line, rest)) :
    ndjsonOfText t =
      if (jsTrim line).isEmpty then ndjsonOfText rest
      else jsTrim line :: ndjsonOfText rest := by
  rw [ndjsonOfText.eq_def]
  have h1 : (splitNl t).isSome := by rw [hs]; rfl
  rw [dif_pos h1]
  have h2 : (splitNl t).get h1 = (line, rest) := by simp [hs]
  rw [h2]

theorem ndjsonOfText_none {t : List Char} (hs : splitNl t = none) :
    ndjsonOfText t = if (jsTrim t).isEmpty then [] else [jsTrim t] := by
  rw [ndjsonOfText.eq_def]
  have h1 : ¬ (splitNl t).isSome := by rw [hs]; simp
  rw [dif_neg h1]

/-- Draining the buffer: once the loop's behaviour on newline-free buffers is
known, the behaviour on every buffer follows line by line. -/
theorem parseNDJSON_drain (ds : DecoderState) (chunks : List (List Nat))
    (t : List Char)
    (hbase : ∀ buf2, splitNl buf2 = none →
      parseNDJSON buf2 ds chunks = ndjsonOfText (buf2 ++ t)) :
    ∀ buf, parseNDJSON buf ds chunks = ndjsonOfText (buf ++ t) := by
  have H : ∀ n buf2, buf2.length ≤ n →
      parseNDJSON buf2 ds chunks = ndjsonOfText (buf2 ++ t) := by
    intro n
    induction n with
    | zero =>
      intro buf2 hlen
      have hb : buf2 = [] := List.length_eq_zero.mp (Nat.le_zero.mp hlen)
      subst hb
      exact hbase [] rfl
    | succ n ih =>
      intro buf2 hlen
      cases hs : splitNl buf2 with
      | none => exact hbase buf2 hs
      | some p =>
        obtain ⟨line, rest⟩ := p
        have hlt := splitNl_length hs
        rw [parseNDJSON_some hs, ndjsonOfText_some (splitNl_append_some t hs),
          ih rest (by omega)]
  exact fun buf => H buf.length buf (Nat.le_refl _)

/-- The record loop over any chunked byte source produces exactly the lines
of the full decoded text. -/
theorem parseNDJSON_eq_ofText (chunks : List (List Nat)) :
    ∀ (ds : DecoderState) (buf : List Char),
      parseNDJSON buf ds chunks = ndjsonOfText (buf ++ decodeAll ds chunks) := by
  induction chunks with
  | nil =>
    intro ds buf
    refine parseNDJSON_drain ds [] (decodeAll ds []) ?_ buf
    intro buf2 hnone
    rw [parseNDJSON_none_nil hnone,
      show decodeAll ds [] = [] from rfl, List.append_nil,
      ndjsonOfText_none hnone]
  | cons c cs ih =>
    intro ds buf
    refine parseNDJSON_drain ds (c :: cs) (decodeAll ds (c :: cs)) ?_ buf
    intro buf2 hnone
    rw [parseNDJSON_none_cons hnone, ih,
      show decodeAll ds (c :: cs)
        = (decodeBytes ds c).2 ++ decodeAll (decodeBytes ds c).1 cs from rfl,
      List.append_assoc]

/-! ### JSON values

Model of the platform JSON.parse / JSON.stringify for the fragment the wire
protocol uses: null, booleans, integer numerals, strings (with the simple
escapes), arrays and objects.  Fractional and exponent numerals and \u
escapes are outside the model (the token counters and chat records never
carry them); a malformed text is none, modelling the thrown SyntaxError. -/

inductive Json where
  | null
  | bool (b : Bool)
  | num (n : Int)
  | str (s : String)
  | arr (elems : List Json)
  | obj (fields : List (String × Json))
  deriving Repr

def braceOpen : Char := Char.ofNat 0x7B

def braceClose : Char := Char.ofNat 0x7D

def jsonWsChar (c : Char) : Bool :=
  c = ' ' ∨ c = '\t' ∨ c = '\n' ∨ c = '\r'

def skipWsJ (cs : List Char) : List Char := cs.dropWhile jsonWsChar

def escChar (c : Char) : Option Char :=
  if c = '"' then some '"'
  else if c = '\\' then some '\\'
  else if c = '/' then some '/'
  else if c = 'b' then some (Char.ofNat 8)
  else if c = 'f' then some (Char.ofNat 12)
  else if c = 'n' then some '\n'
  else if c = 'r' then some '\r'
  else if c = 't' then some '\t'
  else none

/-- Body of a JSON string literal, after the opening quote. -/
def parseStringBody : List Char → List Char → Option (String × List Char)
  | [], _ => none
  | c :: rest, acc =>
    if c = '"' then some (acc.reverse.asString, rest)
    else if c = '\\' then
      match rest with
      | [] => none
      | e :: rest2 =>
        match escChar e with
        | some d => parseStringBody rest2 (d :: acc)
        | none => none
    else parseStringBody rest (c :: acc)

def digitVal (c : Char) : Option Nat :=
  if '0' ≤ c ∧ c ≤ '9' then some (c.toNat - 48) else none

def parseDigits : List Char → Nat → Bool → Option (Nat × List Char)
  | [], acc, seen => if seen then some (acc, []) else none
  | c :: rest, acc, seen =>
    match digitVal c with
    | some d => parseDigits rest (acc * 10 + d) true
    | none => if seen then some (acc, c :: rest) else none

def parseIntToken (cs : List Char) : Option (Int × List Char) :=
  match cs with
  | '-' :: rest => (parseDigits rest 0 false).map (fun p => (-(p.1 : Int), p.2))
  | _ => (parseDigits cs 0 false).map (fun p => ((p.1 : Int), p.2))

mutual

def parseValue : Nat → List Char → Option (Json × List Char)
  | 0, _ => none
  | fuel + 1, cs =>
    match skipWsJ cs with
    | [] => none
    | c :: rest =>
      if c = '"' then
        (parseStringBody rest []).map (fun p => (Json.str p.1, p.2))
      else if c = braceOpen then parseObjItems fuel rest []
      else if c = '[' then parseArrItems fuel rest []
      else if c = 't' then
        match rest with
        | 'r' :: 'u' :: 'e' :: rest2 => some (Json.bool true, rest2)
        | _ => none
      else if c = 'f' then
        match rest with
        | 'a' :: 'l' :: 's' :: 'e' :: rest2 => some (Json.bool false, rest2)
        | _ => none
      else if c = 'n' then
        match rest with
        | 'u' :: 'l' :: 'l' :: rest2 => some (Json.null, rest2)
        | _ => none
      else
        (parseIntToken (c :: rest)).map (fun p => (Json.num p.1, p.2))

def parseArrItems : Nat → List Char → List Json → Option (Json × List Char)
  | 0, _, _ => none
  | fuel + 1, cs, acc =>
    match skipWsJ cs with
    | [] => none
    | c :: rest =>
      if c = ']' ∧ acc.isEmpty then some (Json.arr [], rest)
      else
        match parseValue fuel (c :: rest) with
        | none => none
        | some (v, rest2) =>
          match skipWsJ rest2 with
          | ',' :: rest3 => parseArrItems fuel rest3 (acc ++ [v])
          | ']' :: rest3 => some (Json.arr (acc ++ [v]), rest3)
          | _ => none

def parseObjItems : Nat → List Char → List (String × Json) →
    Option (Json × List Char)
  | 0, _, _ => none
  | fuel + 1, cs, acc =>
    match skipWsJ cs with
    | [] => none
    | c :: rest =>
      if c = braceClose ∧ acc.isEmpty then some (Json.obj [], rest)
      else if c = '"' then
        match parseStringBody rest [] with
        | none => none
        | some (key, rest2) =>
          match skipWsJ rest2 with
          | ':' :: rest3 =>
            match parseValue fuel rest3 with
            | none => none
            | some (v, rest4) =>
              match skipWsJ rest4 with
              | ',' :: rest5 => parseObjItems fuel rest5 (acc ++ [(key, v)])
              | d :: rest5 =>
                if d = braceClose then some (Json.obj (acc ++ [(key, v)]), rest5)
                else none
              | [] => none
          | _ => none
      else none

end

/-- JSON.parse: a whole text parses to one value with only trailing
whitespace allowed. -/
def parseJson (l : List Char) : Option Json :=
  match parseValue (2 * l.length + 4) l with
  | some (j, rest) => if (skipWsJ rest).isEmpty then some j else none
  | none => none

def escapeJsonChar (c : Char) : List Char :=
  if c = '"' then ['\\', '"']
  else if c = '\\' then ['\\', '\\']
  else if c = '\n' then ['\\', 'n']
  else if c = '\r' then ['\\', 'r']
  else if c = '\t' then ['\\', 't']
  else if c = Char.ofNat 8 then ['\\', 'b']
  else if c = Char.ofNat 12 then ['\\', 'f']
  else [c]

def escapeJsonString (s : String) : String :=
  (s.data.foldr (fun c acc => escapeJsonChar c ++ acc) []).asString

mutual

def stringify : Json → String
  | .null => "null"
  | .bool true => "true"
  | .bool false => "false"
  | .num n => toString n
  | .str s => "\"" ++ escapeJsonString s ++ "\""
  | .arr es => "[" ++ stringifyItems es ++ "]"
  | .obj fs => braceOpen.toString ++ stringifyFields fs ++ braceClose.toString

def stringifyItems : List Json → String
  | [] => ""
  | [j] => stringify j
  | j :: rest => stringify j ++ "," ++ stringifyItems rest

def stringifyFields : List (String × Json) → String
  | [] => ""
  | [(k, v)] => "\"" ++ escapeJsonString k ++ "\":" ++ stringify v
  | (k, v) :: rest =>
    "\"" ++ escapeJsonString k ++ "\":" ++ stringify v ++ "," ++
      stringifyFields rest

end

/-! ### Wire and chat types (tool-calling.ts / shared/ollama.ts) -/

structure TokenUsage where
  promptTokens : Int
  completionTokens : Int
  totalTokens : Int
  deriving DecidableEq, Repr

structure ToolFn where
  name : String
  arguments : Json
  deriving Repr

structure ToolCall where
  id : String
  function : ToolFn
  deriving Repr

structure ChunkMsg where
  role : String
  content : String
  thinking : Option String
  tool_calls : Option (List ToolCall)
  deriving Repr

structure OllamaChatChunk where
  message : ChunkMsg
  done : Bool
  prompt_eval_count : Option Int
  eval_count : Option Int
  error : Option String
  deriving Repr

inductive ChatEvent where
  | text (content : String)
  | thinking (content : String)
  | tool_calls (toolCalls : List ToolCall)
  deriving Repr

structure ChatResult where
  text : String
  thinking : Option String
  toolCalls : Option (List ToolCall)
  usage : TokenUsage
  deriving Repr

/-- JavaScript truthiness of an optional string field: undefined and the
empty string are falsy, any other string is truthy. -/
def strTruthy : Option String → Bool
  | none => false
  | some s => s ≠ ""

def emptyUsage : TokenUsage := ⟨0, 0, 0⟩

/-- usageFromChunk (shared/ollama.ts): absent counters default to zero, the
total is the sum of the two. -/
def usageFromChunk (c : OllamaChatChunk) : TokenUsage :=
  ⟨c.prompt_eval_count.getD 0, c.eval_count.getD 0,
    c.prompt_eval_count.getD 0 + c.eval_count.getD 0⟩

/-! ### Chat event stream state machine (useChatStream, tool-calling.ts)

The resource closes over the text buffer, thinking buffer, tool-call list
and usage accumulators, plus a FIFO queue of pending events.  next() emits
a pending event if any; otherwise it pulls the next decoded record: end of
records returns the terminal ChatResult, an error field throws, a done
record recomputes usage, content / thinking / tool_calls are accumulated
and enqueued in that order, and a record with no events recurses into
next() transparently. -/

structure Accums where
  textBuffer : String
  thinkingBuffer : String
  toolCalls : List ToolCall
  usage : TokenUsage
  deriving Repr

def initAcc : Accums := ⟨"", "", [], ⟨0, 0, 0⟩⟩

/-- Usage capture from a record whose done flag is set (same formula as
usageFromChunk); other records leave usage unchanged. -/
def captureUsage (acc : Accums) (c : OllamaChatChunk) : TokenUsage :=
  if c.done then
    ⟨c.prompt_eval_count.getD 0, c.eval_count.getD 0,
      c.prompt_eval_count.getD 0 + c.eval_count.getD 0⟩
  else acc.usage

/-- The events one decoded record enqueues, in source order: text when the
content string is truthy, thinking when truthy, tool_calls when the field
is present (an empty array is truthy in JavaScript). -/
def eventsOfChunk (c : OllamaChatChunk) : List ChatEvent :=
  (if c.message.content ≠ "" then [ChatEvent.text c.message.content] else [])
    ++ (match c.message.thinking with
        | some t => if t ≠ "" then [ChatEvent.thinking t] else []
        | none => [])
    ++ (match c.message.tool_calls with
        | some tcs => [ChatEvent.tool_calls tcs]
        | none => [])

def updateAcc (acc : Accums) (c : OllamaChatChunk) : Accums :=
  { textBuffer :=
      if c.message.content ≠ "" then acc.textBuffer ++ c.message.content
      else acc.textBuffer,
    thinkingBuffer :=
      match c.message.thinking with
      | some t => if t ≠ "" then acc.thinkingBuffer ++ t else acc.thinkingBuffer
      | none => acc.thinkingBuffer,
    toolCalls :=
      match c.message.tool_calls with
      | some tcs => acc.toolCalls ++ tcs
      | none => acc.toolCalls,
    usage := captureUsage acc c }

/-- The terminal ChatResult: full text buffer, thinking buffer or absent
when empty, tool calls or absent when none, last captured usage. -/
def finalResult (acc : Accums) : ChatResult :=
  { text := acc.textBuffer,
    thinking := if acc.thinkingBuffer = "" then none else some acc.thinkingBuffer,
    toolCalls := if acc.toolCalls.length > 0 then some acc.toolCalls else none,
    usage := acc.usage }

inductive StepResult where
  | event (e : ChatEvent) (pending : List ChatEvent) (acc : Accums)
      (chunks : List OllamaChatChunk)
  | result (r : ChatResult)
  | failure (msg : String)
  deriving Repr

/-- One next() step of useChatStream on the explicit state (pending queue,
accumulators, remaining decoded records). -/
def chatNext : List ChatEvent → Accums → List OllamaChatChunk → StepResult
  | e :: rest, acc, chunks => .event e rest acc chunks
  | [], acc, [] => .result (finalResult acc)
  | [], acc, c :: cs =>
    if strTruthy c.error then .failure ("Ollama: " ++ c.error.getD "")
    else
      match eventsOfChunk c with
      | e :: rest => .event e rest (updateAcc acc c) cs
      | [] => chatNext [] (updateAcc acc c) cs

/-- The stream's observable trace: every emitted event in order, and the
terminal outcome (result or thrown error). -/
def runStream : List ChatEvent → Accums → List OllamaChatChunk →
    List ChatEvent × Except String ChatResult
  | pending, acc, [] => (pending, .ok (finalResult acc))
  | pending, acc, c :: cs =>
    if strTruthy c.error then (pending, .error ("Ollama: " ++ c.error.getD ""))
    else
      let rest := runStream [] (updateAcc acc c) cs
      (pending ++ (eventsOfChunk c ++ rest.1), rest.2)

theorem runStream_pending (p : List ChatEvent) (acc : Accums)
    (cs : List OllamaChatChunk) :
    runStream p acc cs = (p ++ (runStream [] acc cs).1, (runStream [] acc cs).2) := by
  cases cs with
  | nil => simp [runStream]
  | cons c cs2 =>
    by_cases h : strTruthy c.error
    · simp [runStream, h]
    · simp [runStream, h]

/-- runStream is exactly the trace of repeated chatNext steps. -/
theorem runStream_eq_chatNext (cs : List OllamaChatChunk) :
    ∀ (p : List ChatEvent) (acc : Accums),
      runStream p acc cs =
        match chatNext p acc cs with
        | .event e p2 a2 cs2 =>
          (e :: (runStream p2 a2 cs2).1, (runStream p2 a2 cs2).2)
        | .result r => ([], Except.ok r)
        | .failure m => ([], Except.error m) := by
  induction cs with
  | nil =>
    intro p acc
    cases p with
    | nil => simp [runStream, chatNext]
    | cons e rest => simp [runStream, chatNext]
  | cons c cs2 ih =>
    intro p acc
    cases p with
    | cons e rest =>
      simp only [chatNext]
      rw [runStream_pending (e :: rest), runStream_pending rest]
      simp
    | nil =>
      by_cases h : strTruthy c.error
      · simp [runStream, chatNext, h]
      · cases hev : eventsOfChunk c with
        | cons e rest =>
          simp only [runStream, chatNext, h, hev, Bool.false_eq_true, if_false,
            List.nil_append]
          rw [runStream_pending rest]
          simp
        | nil =>
          simp only [runStream, chatNext, h, hev, Bool.false_eq_true, if_false,
            List.nil_append]
          exact ih [] (updateAcc acc c)

/-! ### Decoded record extraction

JSON.parse(line) as OllamaChatChunk performs no validation; the stream then
reads the fields message.content, message.thinking, message.tool_calls,
done, prompt_eval_count, eval_count and error with JavaScript field-access
semantics (absent and null read as undefined / falsy).  chunkOfJson models
that field access for well-shaped records; an impossibly-shaped record is
none. -/

/-- Object field lookup; on duplicate keys JSON.parse keeps the last. -/
def lookupField (fields : List (String × Json)) (k : String) : Option Json :=
  ((fields.filter (fun p => p.1 = k)).getLast?).map (fun p => p.2)

def jsonField (j : Json) (k : String) : Option Json :=
  match j with
  | .obj fs => lookupField fs k
  | _ => none

def asString : Json → Option String
  | .str s => some s
  | _ => none

def optStringField (j : Json) (k : String) : Option (Option String) :=
  match jsonField j k with
  | none => some none
  | some .null => some none
  | some (.str s) => some (some s)
  | _ => none

def optIntField (j : Json) (k : String) : Option (Option Int) :=
  match jsonField j k with
  | none => some none
  | some .null => some none
  | some (.num n) => some (some n)
  | _ => none

def boolField (j : Json) (k : String) : Option Bool :=
  match jsonField j k with
  | none => some false
  | some .null => some false
  | some (.bool b) => some b
  | _ => none

def toolCallOfJson (j : Json) : Option ToolCall := do
  let id ← (jsonField j "id").bind asString
  let fn ← jsonField j "function"
  let name ← (jsonField fn "name").bind asString
  let args ← jsonField fn "arguments"
  pure ⟨id, ⟨name, args⟩⟩

def toolCallsField (j : Json) : Option (Option (List ToolCall)) :=
  match jsonField j "tool_calls" with
  | none => some none
  | some .null => some none
  | some (.arr xs) =>
    match xs.mapM toolCallOfJson with
    | some tcs => some (some tcs)
    | none => none
  | _ => none

def chunkOfJson (j : Json) : Option OllamaChatChunk := do
  let msg ← jsonField j "message"
  let content ← (jsonField msg "content").bind asString
  let thinking ← optStringField msg "thinking"
  let tcs ← toolCallsField msg
  let done ← boolField j "done"
  let pec ← optIntField j "prompt_eval_count"
  let ec ← optIntField j "eval_count"
  let errf ← optStringField j "error"
  pure ⟨⟨((jsonField msg "role").bind asString).getD "", content, thinking, tcs⟩,
    done, pec, ec, errf⟩

def parseChunkLine (l : List Char) : Option OllamaChatChunk :=
  (parseJson l).bind chunkOfJson

/-- The records parseNDJSON delivers from a chunked byte source: its yielded
lines, each put through JSON.parse. -/
def ndjsonRecords (chunks : List (List Nat)) : List (Option Json) :=
  (parseNDJSON [] initDecoder chunks).map parseJson

/-- End-to-end pipeline: bytes → NDJSON lines → decoded chat records →
observable chat trace. -/
def chatStreamOfBytes (chunks : List (List Nat)) :
    Option (List ChatEvent × Except String ChatResult) :=
  ((parseNDJSON [] initDecoder chunks).mapM parseChunkLine).map
    (runStream [] initAcc)

/-! ### Tool registry and executor (tool-calling.ts, streaming part_002)

The Zod parameter schema of a tool is modelled as its safeParse function
(validate to a Result), the handler as a function that either returns a
value (a string, or any JSON value that gets stringified) or raises a
fault.  The registry is the insertion-ordered map built by
createToolRegistry via Map.set. -/

inductive Result (T : Type) (E : Type) where
  | ok (value : T)
  | err (error : E)
  deriving Repr

def Result.isOk {T E : Type} : Result T E → Bool
  | .ok _ => true
  | .err _ => false

structure ZodError where
  message : String
  deriving DecidableEq, Repr

inductive HandlerRet where
  | strVal (s : String)
  | jsonVal (j : Json)
  deriving Repr

/-- A raised fault: an Error (whose message is used) or any other thrown
value (whose String(e) conversion is used). -/
inductive ToolFault where
  | jsError (message : String)
  | nonError (asStr : String)
  deriving DecidableEq, Repr

def ToolFault.toMessage : ToolFault → String
  | .jsError m => m
  | .nonError s => s

inductive ToolCause where
  | validationCause (e : ZodError)
  | execCause (f : ToolFault)
  deriving DecidableEq, Repr

structure AnyTool where
  name : String
  description : String
  safeParse : Json → Except ZodError Json
  execute : Json → Except ToolFault HandlerRet

structure ToolResult where
  id : String
  content : String
  ok : Bool
  deriving DecidableEq, Repr

inductive Phase where
  | validation
  | execution
  | not_found
  deriving DecidableEq, Repr

structure ToolError where
  callId : String
  toolName : String
  message : String
  cause : Option ToolCause
  phase : Phase
  deriving DecidableEq, Repr

structure ToolRegistry where
  tools : List (String × AnyTool)

/-- Map.prototype.set: replace in place when the key exists, else append. -/
def mapSet (m : List (String × AnyTool)) (k : String) (v : AnyTool) :
    List (String × AnyTool) :=
  if m.any (fun p => p.1 = k) then
    m.map (fun p => if p.1 = k then (k, v) else p)
  else m ++ [(k, v)]

def createToolRegistry (ts : List AnyTool) : ToolRegistry :=
  ⟨ts.foldl (fun m t => mapSet m t.name t) []⟩

/-- Map.prototype.get on the registry. -/
def lookupTool (r : ToolRegistry) (name : String) : Option AnyTool :=
  (r.tools.find? (fun p => p.1 = name)).map (fun p => p.2)

/-- typeof result === string ? result : JSON.stringify(result). -/
def serializeRet : HandlerRet → String
  | .strVal s => s
  | .jsonVal j => stringify j

/-- executeToolCall: look the tool up, validate the arguments, run the
handler, wrap everything as a Result. -/
def executeToolCall (registry : ToolRegistry) (toolCall : ToolCall) :
    Result ToolResult ToolError :=
  match lookupTool registry toolCall.function.name with
  | none =>
    .err ⟨toolCall.id, toolCall.function.name,
      "Unknown tool: " ++ toolCall.function.name, none, .not_found⟩
  | some tool =>
    match tool.safeParse toolCall.function.arguments with
    | .error zerr =>
      .err ⟨toolCall.id, toolCall.function.name,
        "Validation failed: " ++ zerr.message,
        some (.validationCause zerr), .validation⟩
    | .ok data =>
      match tool.execute data with
      | .error f =>
        .err ⟨toolCall.id, toolCall.function.name, f.toMessage,
          some (.execCause f), .execution⟩
      | .ok ret => .ok ⟨toolCall.id, serializeRet ret, true⟩

/-- all(result.toolCalls.map(tc => executeToolCall(registry, tc))): the
batch resolves every call and returns the results in submission order
(Effection's all preserves input order regardless of completion order). -/
def executeToolBatch (registry : ToolRegistry) (calls : List ToolCall) :
    List (Result ToolResult ToolError) :=
  calls.map (fun tc => executeToolCall registry tc)

/-- Registry with the execute function of the tool registered under the
given name replaced (used to state that a phase's outcome never invokes
the handler). -/
def setExec (r : ToolRegistry) (name : String)
    (g : Json → Except ToolFault HandlerRet) : ToolRegistry :=
  ⟨r.tools.map (fun p =>
    if p.1 = name then (p.1, { p.2 with execute := g }) else p)⟩

theorem lookupTool_setExec (r : ToolRegistry) (name : String)
    (g : Json → Except ToolFault HandlerRet) :
    lookupTool (setExec r name g) name =
      (lookupTool r name).map (fun t => { t with execute := g }) := by
  obtain ⟨ts⟩ := r
  induction ts with
  | nil => rfl
  | cons p ps ih =>
    simp only [lookupTool, setExec, List.map_cons, List.find?] at ih ⊢
    by_cases hp : p.1 = name
    · simp [hp]
    · simp only [hp, if_false, decide_eq_false hp] at ih ⊢
      exact ih

/-! ### Usage accumulator (UsageState fold, tool-calling.ts) -/

structure UsageState where
  current : TokenUsage
  cumulative : TokenUsage
  contextLimit : Int
  history : List TokenUsage
  deriving Repr

/-- The per-turn usage-context update: current replaced, cumulative summed
field by field, history appended. -/
def updateUsageState (prev : UsageState) (turn : TokenUsage) : UsageState :=
  { current := turn,
    cumulative :=
      ⟨prev.cumulative.promptTokens + turn.promptTokens,
        prev.cumulative.completionTokens + turn.completionTokens,
        prev.cumulative.totalTokens + turn.totalTokens⟩,
    contextLimit := prev.contextLimit,
    history := prev.history ++ [turn] }

/-- The invariant: the total is the sum of the two parts. -/
def UsageInv (u : TokenUsage) : Prop :=
  u.totalTokens = u.promptTokens + u.completionTokens

/-! ### Evaluation helpers for concrete runs -/

/-- Fuel-indexed version of ndjsonOfText; with enough fuel it agrees with
ndjsonOfText and, being structurally recursive, it reduces on closed
inputs. -/
def ndjsonOfTextFuel : Nat → List Char → List (List Char)
  | 0, _ => []
  | fuel + 1, t =>
    match splitNl t with
    | some (line, rest) =>
      if (jsTrim line).isEmpty then ndjsonOfTextFuel fuel rest
      else jsTrim line :: ndjsonOfTextFuel fuel rest
    | none => if (jsTrim t).isEmpty then [] else [jsTrim t]

theorem ndjsonOfTextFuel_eq :
    ∀ (fuel : Nat) (t : List Char), t.length < fuel →
      ndjsonOfTextFuel fuel t = ndjsonOfText t := by
  intro fuel
  induction fuel with
  | zero => intro t h; exact absurd h (Nat.not_lt_zero _)
  | succ n ih =>
    intro t h
    cases hs : splitNl t with
    | none =>
      rw [ndjsonOfText_none hs]
      simp [ndjsonOfTextFuel, hs]
    | some p =>
      obtain ⟨line, rest⟩ := p
      have hlt := splitNl_length hs
      rw [ndjsonOfText_some hs]
      simp only [ndjsonOfTextFuel, hs]
      rw [ih rest (by omega)]

theorem ndjsonOfText_eval (t : List Char) :
    ndjsonOfText t = ndjsonOfTextFuel (t.length + 1) t :=
  (ndjsonOfTextFuel_eq _ _ (Nat.lt_succ_self _)).symm

/-- The rank of an event type in the per-record emission order. -/
def eventRank : ChatEvent → Nat
  | .text _ => 0
  | .thinking _ => 1
  | .tool_calls _ => 2

/-- UTF-8 bytes of an ASCII string (every input below is ASCII). -/
def strBytes (s : String) : List Nat := s.data.map Char.toNat

/-! ### Claims -/

/-- Claim C1: for every byte sequence and every way of splitting it into
chunks, running the NDJSON decoder over the chunked source yields exactly
the same sequence of parsed records as running it over the whole sequence
delivered as one chunk — the per-byte streaming text decode carries
multi-byte sequences across read boundaries, so the yielded lines, and
hence the JSON.parse results, coincide. -/
theorem ndjson_chunk_invariance (chunks : List (List Nat)) :
    parseNDJSON [] initDecoder chunks
        = parseNDJSON [] initDecoder [chunks.flatten]
    ∧ ndjsonRecords chunks = ndjsonRecords [chunks.flatten] := by
  have hdec : decodeAll initDecoder [chunks.flatten]
      = decodeAll initDecoder chunks := by
    rw [decodeAll_flatten initDecoder chunks]
    simp [decodeAll]
  have h : parseNDJSON [] initDecoder chunks
      = parseNDJSON [] initDecoder [chunks.flatten] := by
    rw [parseNDJSON_eq_ofText, parseNDJSON_eq_ofText, hdec]
  exact ⟨h, by unfold ndjsonRecords; rw [h]⟩

/-- Claim C7: when the byte source signals end-of-data, a trailing line with
no terminating newline is yielded exactly once iff the remaining buffer is
non-empty after trimming whitespace; otherwise the decoder signals end
directly without yielding. -/
theorem ndjson_trailing_line (buf : List Char) (ds : DecoderState)
    (chunks : List (List Nat))
    (h : splitNl (buf ++ decodeAll ds chunks) = none) :
    parseNDJSON buf ds chunks =
      if (jsTrim (buf ++ decodeAll ds chunks)).isEmpty then []
      else [jsTrim (buf ++ decodeAll ds chunks)] := by
  rw [parseNDJSON_eq_ofText, ndjsonOfText_none h]

theorem ndjson_trailing_line_w :
    parseNDJSON " hi".data initDecoder [] = ["hi".data]
    ∧ parseNDJSON "  ".data initDecoder [] = [] :=
  ⟨(ndjson_trailing_line " hi".data initDecoder [] rfl).trans (by rfl),
    (ndjson_trailing_line "  ".data initDecoder [] rfl).trans (by rfl)⟩

def c2Line1 : String :=
  "\x7b\"message\":\x7b\"role\":\"assistant\",\"content\":\"Hi\"\x7d,\"done\":false\x7d"

def c2Line2 : String :=
  "\x7b\"message\":\x7b\"role\":\"assistant\",\"content\":\"\"\x7d,\"done\":true,\"prompt_eval_count\":5,\"eval_count\":2\x7d"

def c2Input : List Nat := strBytes (c2Line1 ++ "\n" ++ c2Line2 ++ "\n")

set_option maxRecDepth 20000 in
/-- Claim C2: on the two-line NDJSON input (content "Hi" then an empty-content
done record with counters 5 and 2), the chat event stream emits exactly one
text event "Hi" and terminates with ChatResult text "Hi", usage 5/2/7,
thinking and toolCalls absent. -/
theorem chat_stream_hi_scenario :
    chatStreamOfBytes [c2Input] =
      some ([ChatEvent.text "Hi"],
        Except.ok ⟨"Hi", none, none, ⟨5, 2, 7⟩⟩) := by
  have ht : parseNDJSON [] initDecoder [c2Input] = [c2Line1.data, c2Line2.data] := by
    rw [parseNDJSON_eq_ofText, List.nil_append, ndjsonOfText_eval]
    rfl
  unfold chatStreamOfBytes
  rw [ht]
  rfl

/-- Claim C5: within one decoded record events are emitted in the fixed
order text, thinking, toolCalls; queued events are drained strictly FIFO
(the pending queue head is emitted and no record is pulled) before the next
record is pulled; and a record producing zero events makes the machine pull
the next record transparently instead of returning an empty step. -/
theorem chat_event_emission_order :
    (∀ c : OllamaChatChunk,
        List.Pairwise (fun a b => eventRank a ≤ eventRank b) (eventsOfChunk c))
    ∧ (∀ (e : ChatEvent) (rest : List ChatEvent) (acc : Accums)
        (chunks : List OllamaChatChunk),
        chatNext (e :: rest) acc chunks = StepResult.event e rest acc chunks)
    ∧ (∀ (acc : Accums) (c : OllamaChatChunk) (cs : List OllamaChatChunk),
        strTruthy c.error = false → eventsOfChunk c = [] →
        chatNext [] acc (c :: cs) = chatNext [] (updateAcc acc c) cs) := by
  refine ⟨?_, ?_, ?_⟩
  · intro c
    rcases hth : c.message.thinking with _ | t
    all_goals rcases htc : c.message.tool_calls with _ | tcs
    all_goals by_cases hct : c.message.content = ""
    all_goals try by_cases ht0 : t = ""
    all_goals simp_all [eventsOfChunk, eventRank, List.pairwise_cons]
  · intro e rest acc chunks
    simp [chatNext]
  · intro acc c cs h1 h2
    simp [chatNext, h1, h2]

theorem chat_event_emission_order_w :
    chatNext []
        (⟨"", "", [], ⟨0, 0, 0⟩⟩ : Accums)
        [⟨⟨"assistant", "", none, none⟩, false, none, none, none⟩,
          ⟨⟨"assistant", "x", none, none⟩, false, none, none, none⟩]
      = chatNext []
          (updateAcc ⟨"", "", [], ⟨0, 0, 0⟩⟩
            ⟨⟨"assistant", "", none, none⟩, false, none, none, none⟩)
          [⟨⟨"assistant", "x", none, none⟩, false, none, none, none⟩] :=
  chat_event_emission_order.2.2 ⟨"", "", [], ⟨0, 0, 0⟩⟩
    ⟨⟨"assistant", "", none, none⟩, false, none, none, none⟩
    [⟨⟨"assistant", "x", none, none⟩, false, none, none, none⟩] rfl rfl

/-- Claim C6: a decoded record carrying a backend-reported error string
fails the turn immediately: the trace is a failure, no ChatResult is
produced, and no event is emitted from that record or any later record. -/
theorem chat_error_aborts_turn (acc : Accums) (c : OllamaChatChunk)
    (cs : List OllamaChatChunk) (e : String)
    (h : c.error = some e) (he : e ≠ "") :
    runStream [] acc (c :: cs) = ([], Except.error ("Ollama: " ++ e)) := by
  have ht : strTruthy c.error = true := by simp [strTruthy, h, he]
  simp only [runStream, ht, if_true]
  rw [h]
  rfl

theorem chat_error_aborts_turn_w :
    runStream []
        (⟨"", "", [], ⟨0, 0, 0⟩⟩ : Accums)
        [⟨⟨"assistant", "", none, none⟩, false, none, none, some "boom"⟩,
          ⟨⟨"assistant", "later", none, none⟩, false, none, none, none⟩]
      = ([], Except.error ("Ollama: " ++ "boom")) :=
  chat_error_aborts_turn ⟨"", "", [], ⟨0, 0, 0⟩⟩
    ⟨⟨"assistant", "", none, none⟩, false, none, none, some "boom"⟩
    [⟨⟨"assistant", "later", none, none⟩, false, none, none, none⟩]
    "boom" rfl (by decide)

/-- Claim C3: executeToolCall resolves every call to exactly one phase:
unknown name gives a not_found failure whose message names the tool and the
outcome is independent of every handler; a schema violation gives a
validation failure carrying the violation message and cause, with the
handler never invoked (the outcome is unchanged under replacing the
handler); a raising handler gives an execution failure whose message
derives from the fault and whose cause is the original fault; success wraps
id, content and ok, serializing non-string returns to JSON. -/
theorem executeToolCall_phase_contract (reg : ToolRegistry) (c : ToolCall) :
    (lookupTool reg c.function.name = none →
      executeToolCall reg c =
        Result.err ⟨c.id, c.function.name,
          "Unknown tool: " ++ c.function.name, none, Phase.not_found⟩)
    ∧ (∀ (tool : AnyTool) (zerr : ZodError),
        lookupTool reg c.function.name = some tool →
        tool.safeParse c.function.arguments = Except.error zerr →
        executeToolCall reg c =
          Result.err ⟨c.id, c.function.name,
            "Validation failed: " ++ zerr.message,
            some (ToolCause.validationCause zerr), Phase.validation⟩
        ∧ ∀ g, executeToolCall (setExec reg c.function.name g) c
            = executeToolCall reg c)
    ∧ (∀ (tool : AnyTool) (data : Json) (f : ToolFault),
        lookupTool reg c.function.name = some tool →
        tool.safeParse c.function.arguments = Except.ok data →
        tool.execute data = Except.error f →
        executeToolCall reg c =
          Result.err ⟨c.id, c.function.name, f.toMessage,
            some (ToolCause.execCause f), Phase.execution⟩)
    ∧ (∀ (tool : AnyTool) (data : Json) (ret : HandlerRet),
        lookupTool reg c.function.name = some tool →
        tool.safeParse c.function.arguments = Except.ok data →
        tool.execute data = Except.ok ret →
        executeToolCall reg c = Result.ok ⟨c.id, serializeRet ret, true⟩
        ∧ (∀ s, ret = HandlerRet.strVal s → serializeRet ret = s)
        ∧ (∀ j, ret = HandlerRet.jsonVal j → serializeRet ret = stringify j)) := by
  refine ⟨?_, ?_, ?_, ?_⟩
  · intro hl
    simp only [executeToolCall, hl]
  · intro tool zerr hl hp
    constructor
    · simp only [executeToolCall, hl, hp]
    · intro g
      simp only [executeToolCall, lookupTool_setExec, hl, Option.map_some']
      simp [hp]
  · intro tool data f hl hp he
    simp only [executeToolCall, hl, hp, he]
  · intro tool data ret hl hp he
    refine ⟨?_, ?_, ?_⟩
    · simp only [executeToolCall, hl, hp, he]
    · intro s hs
      subst hs
      rfl
    · intro j hj
      subst hj
      rfl

def wToolEcho : AnyTool :=
  { name := "echo", description := "echoes its arguments",
    safeParse := fun j =>
      match j with
      | Json.obj [] => Except.ok j
      | _ => Except.error ⟨"expected an empty object"⟩,
    execute := fun _ => Except.ok (HandlerRet.strVal "done") }

def wToolBoom : AnyTool :=
  { name := "boom", description := "always raises",
    safeParse := fun j => Except.ok j,
    execute := fun _ => Except.error (ToolFault.jsError "exploded") }

def wReg : ToolRegistry := createToolRegistry [wToolEcho, wToolBoom]

def wCallOk : ToolCall := ⟨"call-1", ⟨"echo", Json.obj []⟩⟩

def wCallBad : ToolCall := ⟨"call-2", ⟨"echo", Json.null⟩⟩

def wCallMissing : ToolCall := ⟨"call-3", ⟨"frobnicate", Json.null⟩⟩

def wCallBoom : ToolCall := ⟨"call-4", ⟨"boom", Json.null⟩⟩

theorem executeToolCall_phase_contract_w :
    executeToolCall wReg wCallMissing =
      Result.err ⟨"call-3", "frobnicate", "Unknown tool: " ++ "frobnicate",
        none, Phase.not_found⟩
    ∧ executeToolCall wReg wCallBad =
      Result.err ⟨"call-2", "echo",
        "Validation failed: " ++ "expected an empty object",
        some (ToolCause.validationCause ⟨"expected an empty object"⟩),
        Phase.validation⟩
    ∧ executeToolCall wReg wCallBoom =
      Result.err ⟨"call-4", "boom",
        ToolFault.toMessage (ToolFault.jsError "exploded"),
        some (ToolCause.execCause (ToolFault.jsError "exploded")),
        Phase.execution⟩
    ∧ executeToolCall wReg wCallOk =
      Result.ok ⟨"call-1", serializeRet (HandlerRet.strVal "done"), true⟩ :=
  ⟨(executeToolCall_phase_contract wReg wCallMissing).1 rfl,
    ((executeToolCall_phase_contract wReg wCallBad).2.1 wToolEcho
      ⟨"expected an empty object"⟩ rfl rfl).1,
    (executeToolCall_phase_contract wReg wCallBoom).2.2.1 wToolBoom Json.null
      (ToolFault.jsError "exploded") rfl rfl rfl,
    ((executeToolCall_phase_contract wReg wCallOk).2.2.2 wToolEcho
      (Json.obj []) (HandlerRet.strVal "done") rfl rfl rfl).1⟩

/-- Claim C10: the Result of executeToolCall identifies the originating
call in every outcome: a success's id is the call's id; a failure's callId
is the call's id and its toolName is the call's function name. -/
theorem tool_result_identifies_call (reg : ToolRegistry) (c : ToolCall) :
    (match executeToolCall reg c with
     | Result.ok r => r.id = c.id
     | Result.err e => e.callId = c.id ∧ e.toolName = c.function.name) := by
  cases hl : lookupTool reg c.function.name with
  | none =>
    simp only [executeToolCall, hl]
    trivial
  | some tool =>
    cases hp : tool.safeParse c.function.arguments with
    | error z =>
      simp only [executeToolCall, hl, hp]
      trivial
    | ok d =>
      cases he : tool.execute d with
      | error f =>
        simp only [executeToolCall, hl, hp, he]
        trivial
      | ok ret =>
        simp only [executeToolCall, hl, hp, he]

/-- Claim C4: a concurrent batch of N tool calls where call k fails
validation and the others succeed resolves to exactly N results in
submission order, the k-th a validation failure and every other a success
(Effection's all() returns every operation's value in input order; a
Result-returning call never rejects the batch). -/
theorem tool_batch_order_isolation (reg : ToolRegistry) (calls : List ToolCall)
    (k : Nat) (hk : k < calls.length)
    (hfail : match executeToolCall reg (calls.get ⟨k, hk⟩) with
      | Result.err e => e.phase = Phase.validation
      | Result.ok _ => False)
    (hok : ∀ (j : Nat) (hj : j < calls.length), j ≠ k →
      Result.isOk (executeToolCall reg (calls.get ⟨j, hj⟩)) = true) :
    (executeToolBatch reg calls).length = calls.length
    ∧ (∀ hk2 : k < (executeToolBatch reg calls).length,
        match (executeToolBatch reg calls).get ⟨k, hk2⟩ with
        | Result.err e => e.phase = Phase.validation
        | Result.ok _ => False)
    ∧ (∀ (j : Nat) (hj : j < (executeToolBatch reg calls).length), j ≠ k →
        Result.isOk ((executeToolBatch reg calls).get ⟨j, hj⟩) = true) := by
  have hlen : (executeToolBatch reg calls).length = calls.length := by
    simp [executeToolBatch]
  have hget : ∀ (j : Nat) (hj : j < (executeToolBatch reg calls).length),
      (executeToolBatch reg calls).get ⟨j, hj⟩
        = executeToolCall reg (calls.get ⟨j, hlen ▸ hj⟩) := by
    intro j hj
    simp [executeToolBatch]
  refine ⟨hlen, ?_, ?_⟩
  · intro hk2
    rw [hget k hk2]
    exact hfail
  · intro j hj hne
    rw [hget j hj]
    exact hok j (hlen ▸ hj) hne

theorem tool_batch_order_isolation_w :
    (executeToolBatch wReg [wCallOk, wCallBad]).length = 2
    ∧ (match (executeToolBatch wReg [wCallOk, wCallBad]).get ⟨1, by decide⟩ with
       | Result.err e => e.phase = Phase.validation
       | Result.ok _ => False)
    ∧ Result.isOk
        ((executeToolBatch wReg [wCallOk, wCallBad]).get ⟨0, by decide⟩) = true := by
  have h := tool_batch_order_isolation wReg [wCallOk, wCallBad] 1 (by decide)
    rfl (by decide)
  exact ⟨h.1, h.2.1 (by decide), h.2.2 0 (by decide) (by decide)⟩

/-- Claim C8: every constructed TokenUsage — the empty usage, a usage
computed from a decoded chunk (both usageFromChunk and the stream's inline
capture), and the cumulative usage folded after a turn — has totalTokens
equal to promptTokens plus completionTokens; the total is never set
independently. -/
theorem usage_total_is_sum :
    UsageInv emptyUsage
    ∧ (∀ c : OllamaChatChunk, UsageInv (usageFromChunk c))
    ∧ (∀ (acc : Accums) (c : OllamaChatChunk),
        UsageInv acc.usage → UsageInv (captureUsage acc c))
    ∧ (∀ (prev : UsageState) (turn : TokenUsage),
        UsageInv prev.cumulative → UsageInv turn →
        UsageInv (updateUsageState prev turn).cumulative) := by
  refine ⟨rfl, fun c => rfl, ?_, ?_⟩
  · intro acc c h
    unfold captureUsage UsageInv
    split
    · rfl
    · exact h
  · intro prev turn h1 h2
    unfold UsageInv at h1 h2 ⊢
    unfold updateUsageState
    dsimp only
    omega

theorem usage_total_is_sum_w :
    UsageInv (captureUsage ⟨"", "", [], ⟨0, 0, 0⟩⟩
      ⟨⟨"assistant", "", none, none⟩, true, some 5, some 2, none⟩)
    ∧ UsageInv (updateUsageState ⟨⟨0, 0, 0⟩, ⟨0, 0, 0⟩, 8192, []⟩ ⟨1, 2, 3⟩).cumulative :=
  ⟨usage_total_is_sum.2.2.1 ⟨"", "", [], ⟨0, 0, 0⟩⟩
      ⟨⟨"assistant", "", none, none⟩, true, some 5, some 2, none⟩ rfl,
    usage_total_is_sum.2.2.2 ⟨⟨0, 0, 0⟩, ⟨0, 0, 0⟩, 8192, []⟩ ⟨1, 2, 3⟩ rfl rfl⟩

def negCountLine : String :=
  "\x7b\"message\":\x7b\"role\":\"assistant\",\"content\":\"\"\x7d,\"done\":true,\"prompt_eval_count\":-1,\"eval_count\":0\x7d"

def negCountChunk : OllamaChatChunk :=
  ⟨⟨"assistant", "", none, none⟩, true, some (-1), some 0, none⟩

/-- Claim C9, counterexample: a decoded chunk can carry a negative backend
counter — the NDJSON line with prompt_eval_count -1 decodes to a chunk whose
computed usage has promptTokens = -1 < 0, so the usage computed from raw
backend counters is not always non-negative. -/
theorem usage_nonneg_cex :
    parseChunkLine negCountLine.data = some negCountChunk
    ∧ (usageFromChunk negCountChunk).promptTokens = -1
    ∧ ¬ 0 ≤ (usageFromChunk negCountChunk).promptTokens :=
  ⟨by rfl, by rfl, by decide⟩

/-- Claim C9, amended: for every decoded chunk whose present counters are
non-negative, the computed TokenUsage has promptTokens, completionTokens
and totalTokens all non-negative, and an absent counter is treated as
zero. -/
theorem usage_nonneg_amended (c : OllamaChatChunk)
    (hp : ∀ n, c.prompt_eval_count = some n → 0 ≤ n)
    (he : ∀ n, c.eval_count = some n → 0 ≤ n) :
    0 ≤ (usageFromChunk c).promptTokens
    ∧ 0 ≤ (usageFromChunk c).completionTokens
    ∧ 0 ≤ (usageFromChunk c).totalTokens
    ∧ (c.prompt_eval_count = none → (usageFromChunk c).promptTokens = 0)
    ∧ (c.eval_count = none → (usageFromChunk c).completionTokens = 0) := by
  have h1 : 0 ≤ c.prompt_eval_count.getD 0 := by
    cases hpc : c.prompt_eval_count with
    | none => simp
    | some n => simpa using hp n hpc
  have h2 : 0 ≤ c.eval_count.getD 0 := by
    cases hec : c.eval_count with
    | none => simp
    | some n => simpa using he n hec
  refine ⟨h1, h2, ?_, ?_, ?_⟩
  · unfold usageFromChunk
    dsimp only
    omega
  · intro h
    simp [usageFromChunk, h]
  · intro h
    simp [usageFromChunk, h]

theorem usage_nonneg_amended_w :
    0 ≤ (usageFromChunk ⟨⟨"assistant", "", none, none⟩, true, some 5, some 2, none⟩).promptTokens
    ∧ 0 ≤ (usageFromChunk ⟨⟨"assistant", "", none, none⟩, true, some 5, some 2, none⟩).completionTokens
    ∧ 0 ≤ (usageFromChunk ⟨⟨"assistant", "", none, none⟩, true, some 5, some 2, none⟩).totalTokens
    ∧ ((⟨⟨"assistant", "", none, none⟩, true, some 5, some 2, none⟩ : OllamaChatChunk).prompt_eval_count = none →
        (usageFromChunk ⟨⟨"assistant", "", none, none⟩, true, some 5, some 2, none⟩).promptTokens = 0)
    ∧ ((⟨⟨"assistant", "", none, none⟩, true, some 5, some 2, none⟩ : OllamaChatChunk).eval_count = none →
        (usageFromChunk ⟨⟨"assistant", "", none, none⟩, true, some 5, some 2, none⟩).completionTokens = 0) :=
  usage_nonneg_amended ⟨⟨"assistant", "", none, none⟩, true, some 5, some 2, none⟩
    (fun n hn => by cases hn; decide) (fun n hn => by cases hn; decide)

end Hydra
